import Mathlib

/-!
Verification development for the ocean-state noise generator
(src/python/SWESimulators/OceanStateNoise.py) of the gpu-ocean repository,
together with the observation-index computation of
src/gpu_ocean/demos/MPI_SIR/sequential_importance_resampling.py.

The Python class `OceanStateNoise` is embedded shallowly:

* machine integers become `ℕ`/`ℤ` with explicit `%` where the source takes a
  modulus; the floating-point values of the source are embedded as exact
  arithmetic (`ℚ` for the linear congruential generator outputs, `ℝ` for the
  Box-Muller transform and the SOAR convolution);
* the mutable instance attributes `host_seed` (the CPU seed store),
  `random_numbers_host` (the CPU random field) and `random_numbers` (the GPU
  random-number buffer, observable on the CPU side only through
  `getRandomNumbers`) become the fields of a state record `NoiseState`;
  methods that assign attributes become functions `NoiseState → NoiseState`;
* grids are total functions `ℕ → ℕ → _` read at in-range indices; the
  freshly allocated arrays of the constructor and of `_applyQ_CPU` are also
  materialised as `List (List _)` where their shape is at stake.
-/

/-- Configuration fixed at construction of `OceanStateNoise.__init__`:
domain size `nx, ny`, cell size `dx, dy`, SOAR support radius `cutoff`,
the per-axis periodicity flags, and the SOAR parameters `soar_q0, soar_L`. -/
structure NoiseConfig where
  nx : ℕ
  ny : ℕ
  dx : ℝ
  dy : ℝ
  cutoff : ℕ
  periodicNorthSouth : Bool
  periodicEastWest : Bool
  soar_q0 : ℝ
  soar_L : ℝ

/-- Width of the random field, from `__init__` lines 61-64:
`rand_nx = nx + 2*(1+cutoff)`, overwritten with `nx` when the east-west
boundary is periodic. -/
def rand_nx (c : NoiseConfig) : ℕ :=
  if c.periodicEastWest then c.nx else c.nx + 2 * (1 + c.cutoff)

/-- Height of the random field, from `__init__` lines 62-66:
`rand_ny = ny + 2*(1+cutoff)`, overwritten with `ny` when the north-south
boundary is periodic. -/
def rand_ny (c : NoiseConfig) : ℕ :=
  if c.periodicNorthSouth then c.ny else c.ny + 2 * (1 + c.cutoff)

/-- Seed-grid height, from `__init__` line 67: `seed_ny = rand_ny`. -/
def seed_ny (c : NoiseConfig) : ℕ := rand_ny c

/-- Seed-grid width, from `__init__` line 68:
`seed_nx = np.int32(rand_nx/2)`, a truncating (floor) division. -/
def seed_nx (c : NoiseConfig) : ℕ := rand_nx c / 2

/-- Seed grid allocated by the constructor (`__init__` line 81): a
`(seed_ny, seed_nx)` array whose entries are draws from an entropy source. -/
def mkHostSeed (c : NoiseConfig) (entropy : ℕ → ℕ → ℕ) : List (List ℕ) :=
  (List.range (seed_ny c)).map (fun y => (List.range (seed_nx c)).map (fun x => entropy y x))

/-- The linear congruential generator `_lcg` (lines 214-216):
`seed = ((seed*1103515245) + 12345) % 0x7fffffff`, returning the variate
`seed / 2147483648.0` together with the advanced seed. -/
def lcg (seed : ℕ) : ℚ × ℕ :=
  ((((seed * 1103515245 + 12345) % 0x7fffffff : ℕ) : ℚ) / 2147483648,
   (seed * 1103515245 + 12345) % 0x7fffffff)

/-- The Box-Muller transform `_boxMuller` (lines 218-226): two LCG draws
`u1, u2`, then `r = sqrt(-2 log u1)`, `theta = 2 pi u2`,
`n1 = r cos theta`, `n2 = r sin theta`, returning `(n1, n2, seed)`.
The source computes `log(u1)` with no guard on `u1 ≤ 0`. -/
noncomputable def boxMuller (seed_in : ℕ) : ℝ × ℝ × ℕ :=
  let p1 := lcg seed_in
  let p2 := lcg p1.2
  let r := Real.sqrt (-2.0 * Real.log ((p1.1 : ℝ)))
  let theta := 2 * Real.pi * (p2.1 : ℝ)
  (r * Real.cos theta, r * Real.sin theta, p2.2)

/-- Mutable state of an `OceanStateNoise` instance: the CPU seed store
`host_seed`, the CPU random field `random_numbers_host`, and the GPU
random-number buffer `random_numbers` (called `random_numbers_gpu` here),
which the CPU-side methods read through `getRandomNumbers` and never write. -/
structure NoiseState where
  host_seed : ℕ → ℕ → ℕ
  random_numbers_host : ℕ → ℕ → ℝ
  random_numbers_gpu : ℕ → ℕ → ℝ

/-- Per-thread draw of `_CPUUpdateRandom` (lines 250-255): with
`normalDist` the pair `(n1, n2)` and the advanced seed come from
`_boxMuller`; otherwise from two successive `_lcg` calls. -/
noncomputable def kernelDraw (normalDist : Bool) (s : ℕ) : ℝ × ℝ × ℕ :=
  if normalDist then boxMuller s
  else (((lcg s).1 : ℝ), ((lcg (lcg s).2).1 : ℝ), (lcg (lcg s).2).2)

/-- The generation step `_CPUUpdateRandom` (lines 228-261). The nested
block/thread loops of the source visit every pair `(x, y)` with
`x < seed_nx`, `y < seed_ny` exactly once, and distinct iterations write
distinct cells (`host_seed[y, x]`; `random_numbers_host[y, 2x]` and
`[y, 2x+1]`), so the update is expressed cell-wise: the thread responsible
for random-field cell `(y, i)` is `(y, i / 2)`, and it writes that cell
under exactly the source's conditions — both columns `2x` and `2x+1` when
`2x + 1 < rand_nx`, only column `2x` when `2x = rand_nx` (the source's
`elif`). Cells no thread writes keep their previous value. -/
noncomputable def CPUUpdateRandom (c : NoiseConfig) (normalDist : Bool) (st : NoiseState) :
    NoiseState :=
  { host_seed := fun y x =>
      if x < seed_nx c ∧ y < seed_ny c then (kernelDraw normalDist (st.host_seed y x)).2.2
      else st.host_seed y x,
    random_numbers_host := fun y i =>
      if i / 2 < seed_nx c ∧ y < seed_ny c then
        if (i / 2) * 2 + 1 < rand_nx c then
          (if i % 2 = 0 then (kernelDraw normalDist (st.host_seed y (i / 2))).1
           else (kernelDraw normalDist (st.host_seed y (i / 2))).2.1)
        else if (i / 2) * 2 = rand_nx c ∧ i % 2 = 0 then
          (kernelDraw normalDist (st.host_seed y (i / 2))).1
        else st.random_numbers_host y i
      else st.random_numbers_host y i,
    random_numbers_gpu := st.random_numbers_gpu }

/-- Method `generateNormalDistributionCPU` (lines 176-177). -/
noncomputable def generateNormalDistributionCPU (c : NoiseConfig) (st : NoiseState) : NoiseState :=
  CPUUpdateRandom c true st

/-- Method `generateUniformDistributionCPU` (lines 179-180). -/
noncomputable def generateUniformDistributionCPU (c : NoiseConfig) (st : NoiseState) : NoiseState :=
  CPUUpdateRandom c false st

/-- The SOAR covariance function `_SOAR_Q_CPU` (lines 263-270) between grid
points `(a_x, a_y)` and `(b_x, b_y)`:
`dist = sqrt(dx*dx*(a_x-b_x)**2 + dy*dy*(a_y-b_y)**2)` and the result is
`soar_q0 * (1.0 + dist/soar_L) * exp(-dist/soar_L)`. -/
noncomputable def SOAR_Q_CPU (c : NoiseConfig) (a_x a_y b_x b_y : ℕ) : ℝ :=
  let dist := Real.sqrt (c.dx * c.dx * ((a_x : ℝ) - (b_x : ℝ)) ^ 2
                       + c.dy * c.dy * ((a_y : ℝ) - (b_y : ℝ)) ^ 2)
  c.soar_q0 * (1.0 + dist / c.soar_L) * Real.exp (-dist / c.soar_L)

/-- The SOAR covariance as a function of the distance alone; `_SOAR_Q_CPU`
factors through this profile (see `SOAR_Q_CPU_as_profile`). -/
noncomputable def SOARprofile (c : NoiseConfig) (dist : ℝ) : ℝ :=
  c.soar_q0 * (1.0 + dist / c.soar_L) * Real.exp (-dist / c.soar_L)

/-- Row-index mapping of `_applyQ_CPU` (lines 284-286): the halo row `j` of
the local buffer reads row `(j - cutoff - 1) % rand_ny` of the random field
when the north-south boundary is periodic, and row `j` itself otherwise.
Python's `%` with a positive modulus agrees with `Int.emod`. -/
def global_j (c : NoiseConfig) (j : ℕ) : ℕ :=
  if c.periodicNorthSouth then (((j : ℤ) - (c.cutoff : ℤ) - 1) % (rand_ny c : ℤ)).toNat else j

/-- Column-index mapping of `_applyQ_CPU` (lines 288-290): the halo column
`i` reads column `(i - cutoff - 1) % rand_nx` of the random field when the
east-west boundary is periodic, and column `i` itself otherwise. -/
def global_i (c : NoiseConfig) (i : ℕ) : ℕ :=
  if c.periodicEastWest then (((i : ℤ) - (c.cutoff : ℤ) - 1) % (rand_nx c : ℤ)).toNat else i

/-- The halo-extended local buffer of `_applyQ_CPU` (line 291):
`local_xi[j, i] = random_numbers_host[global_j(j), global_i(i)]`. -/
noncomputable def local_xi (c : NoiseConfig) (st : NoiseState) (j i : ℕ) : ℝ :=
  st.random_numbers_host (global_j c j) (global_i c i)

/-- The convolution of `_applyQ_CPU` (lines 295-313) at output cell
`(a_y, a_x)`: with `local_a = a + cutoff`, the stencil coordinates run over
`b ∈ [local_a - cutoff, local_a + cutoff + 1) = [a, a + 2*cutoff + 1)`, so
`b = a + t` with `t < 2*cutoff + 1`, and each term is
`SOAR_Q_CPU(local_a_x, local_a_y, b_x, b_y) * local_xi[b_y, b_x]`. -/
noncomputable def applyQ_CPU (c : NoiseConfig) (st : NoiseState) (a_y a_x : ℕ) : ℝ :=
  ∑ t_y ∈ Finset.range (2 * c.cutoff + 1), ∑ t_x ∈ Finset.range (2 * c.cutoff + 1),
    SOAR_Q_CPU c (a_x + c.cutoff) (a_y + c.cutoff) (a_x + t_x) (a_y + t_y)
      * local_xi c st (a_y + t_y) (a_x + t_x)

/-- The `(ny+2, nx+2)` array `Qxi` returned by `_applyQ_CPU` (line 295 and
312-313), materialised row by row. -/
noncomputable def applyQ_CPU_grid (c : NoiseConfig) (st : NoiseState) : List (List ℝ) :=
  (List.range (c.ny + 2)).map (fun a_y =>
    (List.range (c.nx + 2)).map (fun a_x => applyQ_CPU c st a_y a_x))

/-- The method call `_applyQ_CPU` viewed as a state transformer: the method
reads `self.random_numbers_host` and the configuration, allocates the fresh
arrays `local_xi` and `Qxi`, and assigns no instance attribute, so its state
component is the identity and it returns the fresh `Qxi` grid. -/
noncomputable def applyQ_CPU_call (c : NoiseConfig) (st : NoiseState) :
    NoiseState × List (List ℝ) :=
  (st, applyQ_CPU_grid c st)

/-- Method `getRandomNumbers` (lines 130-131): download the GPU
random-number buffer. -/
def getRandomNumbers (st : NoiseState) : ℕ → ℕ → ℝ :=
  st.random_numbers_gpu

/-- Method `perturbEtaCPU` (lines 185-197): when `use_existing_GPU_random_numbers`
holds, overwrite `random_numbers_host` with the downloaded GPU buffer,
otherwise run `generateNormalDistributionCPU`; then compute
`d_eta = _applyQ_CPU()` and add `d_eta[1:-1, 1:-1]` (shape `(ny, nx)`) to
the caller's `eta` buffer. Returns the updated state and buffer. -/
noncomputable def perturbEtaCPU (c : NoiseConfig) (st : NoiseState) (eta : ℕ → ℕ → ℝ)
    (use_existing_GPU_random_numbers : Bool) : NoiseState × (ℕ → ℕ → ℝ) :=
  let st2 := if use_existing_GPU_random_numbers then
      { st with random_numbers_host := getRandomNumbers st }
    else generateNormalDistributionCPU c st
  (st2, fun y x =>
    if y < c.ny ∧ x < c.nx then eta y x + applyQ_CPU c st2 (y + 1) (x + 1) else eta y x)

/-- Modelled from the spec: the index mapping of the accelerated (GPU)
convolution kernel `ocean_noise.opencl`, whose source is not part of this
repository snapshot (only its caller `perturbOceanState` is). Following
section 4.3 of the spec, a local (domain-relative) coordinate `q` maps to a
random-field coordinate by wrapping modulo the random-field extent on a
Periodic axis, and by the fixed halo offset `cutoff + 1` with no wrapping
on a NonPeriodic axis. -/
def specMapIdx (periodic : Bool) (extent cutoff : ℕ) (q : ℤ) : ℕ :=
  if periodic then (q % (extent : ℤ)).toNat else (q + (cutoff : ℤ) + 1).toNat

/-- Modelled from the spec: the SOAR weight of the accelerated kernel for a
stencil offset `(k_x, k_y)`, with
`dist = sqrt(dx^2 (ax-bx)^2 + dy^2 (ay-by)^2)` and
`SOAR(dist) = q0 (1 + dist/L) exp(-dist/L)` (spec section 4.3). -/
noncomputable def soarWeight (c : NoiseConfig) (k_x k_y : ℤ) : ℝ :=
  let dist := Real.sqrt (c.dx * c.dx * (k_x : ℝ) ^ 2 + c.dy * c.dy * (k_y : ℝ) ^ 2)
  c.soar_q0 * (1.0 + dist / c.soar_L) * Real.exp (-dist / c.soar_L)

/-- Modelled from the spec: the accelerated (data-parallel) convolution of
the GPU kernel `ocean_noise.opencl`, which is not part of this repository
snapshot. Following spec section 4.3: for every output cell `(a_x, a_y)` of
the `(ny+2) × (nx+2)` result grid, sum SOAR-weighted contributions from
every random-field cell within `±cutoff` of the cell in each local axis;
the domain-relative coordinate of output cell `a` is `a - 1` (one ghost
ring), and indices map per axis through `specMapIdx`. -/
noncomputable def applyQ_accel (c : NoiseConfig) (st : NoiseState) (a_y a_x : ℕ) : ℝ :=
  ∑ k_y ∈ Finset.Icc (-(c.cutoff : ℤ)) (c.cutoff : ℤ),
    ∑ k_x ∈ Finset.Icc (-(c.cutoff : ℤ)) (c.cutoff : ℤ),
      soarWeight c k_x k_y
        * st.random_numbers_host
            (specMapIdx c.periodicNorthSouth (rand_ny c) c.cutoff ((a_y : ℤ) - 1 + k_y))
            (specMapIdx c.periodicEastWest (rand_nx c) c.cutoff ((a_x : ℤ) - 1 + k_x))

/-- The observation-index computation of `dataAssimilationLoop` and
`forecastLoop` in sequential_importance_resampling.py (lines 90 and 123):
`numpy.searchsorted` with its default left side returns, for a sorted
array, the number of entries strictly below the query. -/
def searchsorted (l : List ℚ) (v : ℚ) : ℕ :=
  l.countP (fun x => decide (x < v))

/-- The observation index `min(0, searchsorted(observation_times, t) - 1)`
from sequential_importance_resampling.py lines 90 and 123. -/
def obs_index (l : List ℚ) (t : ℚ) : ℤ :=
  min 0 ((searchsorted l t : ℤ) - 1)

/-- Concrete configuration with an odd random-field width: `nx = 5` with a
periodic east-west boundary gives `rand_nx = 5` and `seed_nx = 2`. -/
noncomputable def oddCfg : NoiseConfig :=
  ⟨5, 4, 1, 1, 2, true, true, 1, 1⟩

/-- Concrete state for the odd-width scenario: every seed cell holds `42`,
every random-field cell holds `7`, the GPU buffer holds `0`. -/
noncomputable def oddState : NoiseState :=
  ⟨fun _ _ => 42, fun _ _ => 7, fun _ _ => 0⟩

/-- Every variate produced by the LCG lies in the half-open unit interval:
the advanced seed is reduced `% 0x7fffffff`, hence is below `2^31`. -/
theorem lcg_mem_unit (s : ℕ) : 0 ≤ (lcg s).1 ∧ (lcg s).1 < 1 := by
  constructor
  · exact div_nonneg (by positivity) (by norm_num)
  · rw [lcg, div_lt_one (by norm_num)]
    have h : (s * 1103515245 + 12345) % 0x7fffffff < 0x7fffffff :=
      Nat.mod_lt _ (by norm_num)
    exact_mod_cast h.trans (by norm_num)

/-- Strict decrease of the SOAR profile on positive distances, for positive
amplitude and lengthscale. -/
theorem SOARprofile_strict_decrease (c : NoiseConfig)
    (hq : 0 < c.soar_q0) (hL : 0 < c.soar_L)
    (d1 d2 : ℝ) (h1 : 0 < d1) (h12 : d1 < d2) :
    SOARprofile c d2 < SOARprofile c d1 := by
  unfold SOARprofile
  have hx0 : 0 < d1 / c.soar_L := div_pos h1 hL
  have hxy : d1 / c.soar_L < d2 / c.soar_L := by
    rw [div_lt_div_iff₀ hL hL]
    nlinarith
  set x := d1 / c.soar_L with hxdef
  set y := d2 / c.soar_L with hydef
  have hexp : (y - x) + 1 < Real.exp (y - x) :=
    Real.add_one_lt_exp (by linarith)
  have h1x : (0 : ℝ) < 1 + x := by linarith
  have hmul : (1 + y) < (1 + x) * Real.exp (y - x) := by
    nlinarith [mul_lt_mul_of_pos_left hexp h1x]
  have hey : (0 : ℝ) < Real.exp (-y) := Real.exp_pos _
  have key : (1 + y) * Real.exp (-y) < (1 + x) * Real.exp (-x) := by
    have step := mul_lt_mul_of_pos_right hmul hey
    calc (1 + y) * Real.exp (-y) < (1 + x) * Real.exp (y - x) * Real.exp (-y) := step
      _ = (1 + x) * Real.exp (-x) := by
          rw [mul_assoc, ← Real.exp_add]
          congr 1
          ring
  have hneg1 : -d2 / c.soar_L = -y := by rw [hydef]; ring
  have hneg2 : -d1 / c.soar_L = -x := by rw [hxdef]; ring
  rw [hneg1, hneg2, mul_assoc, mul_assoc]
  have goal10 : (1.0 : ℝ) = 1 := by norm_num
  rw [goal10]
  exact mul_lt_mul_of_pos_left key hq

/-- C7: the SOAR covariance computed by `_SOAR_Q_CPU` equals `soar_q0`
exactly at distance zero (coincident grid points), it factors through the
distance profile `SOARprofile`, and for positive `soar_q0` and `soar_L`
that profile is strictly decreasing on positive distances. -/
theorem soar_peak_and_strict_decrease (c : NoiseConfig)
    (hq : 0 < c.soar_q0) (hL : 0 < c.soar_L) :
    (∀ a_x a_y : ℕ, SOAR_Q_CPU c a_x a_y a_x a_y = c.soar_q0)
    ∧ (∀ d1 d2 : ℝ, 0 < d1 → d1 < d2 → SOARprofile c d2 < SOARprofile c d1)
    ∧ (∀ a_x a_y b_x b_y : ℕ, SOAR_Q_CPU c a_x a_y b_x b_y
        = SOARprofile c (Real.sqrt (c.dx * c.dx * ((a_x : ℝ) - (b_x : ℝ)) ^ 2
            + c.dy * c.dy * ((a_y : ℝ) - (b_y : ℝ)) ^ 2))) := by
  refine ⟨?_, ?_, ?_⟩
  · intro a_x a_y
    simp [SOAR_Q_CPU]
    norm_num
  · intro d1 d2 h1 h12
    exact SOARprofile_strict_decrease c hq hL d1 d2 h1 h12
  · intro a_x a_y b_x b_y
    rfl

/-- Closed witness for `soar_peak_and_strict_decrease` at the concrete
configuration `oddCfg`, whose SOAR amplitude and lengthscale are `1`. -/
theorem soar_peak_and_strict_decrease_witness :
    (0 : ℝ) < oddCfg.soar_q0 ∧ (0 : ℝ) < oddCfg.soar_L
    ∧ ((∀ a_x a_y : ℕ, SOAR_Q_CPU oddCfg a_x a_y a_x a_y = oddCfg.soar_q0)
      ∧ (∀ d1 d2 : ℝ, 0 < d1 → d1 < d2 → SOARprofile oddCfg d2 < SOARprofile oddCfg d1)
      ∧ (∀ a_x a_y b_x b_y : ℕ, SOAR_Q_CPU oddCfg a_x a_y b_x b_y
          = SOARprofile oddCfg (Real.sqrt (oddCfg.dx * oddCfg.dx * ((a_x : ℝ) - (b_x : ℝ)) ^ 2
              + oddCfg.dy * oddCfg.dy * ((a_y : ℝ) - (b_y : ℝ)) ^ 2)))) :=
  ⟨one_pos, one_pos, soar_peak_and_strict_decrease oddCfg one_pos one_pos⟩

/-- C8: for a seed grid whose cells are valid seeds (below `2^31`), every
cell of the random field after `generateUniformDistributionCPU` either kept
its previous value (it was not written) or holds a variate in `[0, 1)`. -/
theorem generateUniform_outputs_in_unit_interval (c : NoiseConfig) (st : NoiseState)
    (hvalid : ∀ y x, st.host_seed y x < 2 ^ 31) (y i : ℕ) :
    (generateUniformDistributionCPU c st).random_numbers_host y i
        = st.random_numbers_host y i
    ∨ (0 ≤ (generateUniformDistributionCPU c st).random_numbers_host y i
        ∧ (generateUniformDistributionCPU c st).random_numbers_host y i < 1) := by
  unfold generateUniformDistributionCPU CPUUpdateRandom kernelDraw
  simp only [Bool.false_eq_true, if_false]
  split_ifs
  · right
    have h := lcg_mem_unit (st.host_seed y (i / 2))
    constructor
    · exact_mod_cast h.1
    · exact_mod_cast h.2
  · right
    have h := lcg_mem_unit (lcg (st.host_seed y (i / 2))).2
    constructor
    · exact_mod_cast h.1
    · exact_mod_cast h.2
  · right
    have h := lcg_mem_unit (st.host_seed y (i / 2))
    constructor
    · exact_mod_cast h.1
    · exact_mod_cast h.2
  · left; rfl
  · left; rfl

/-- Closed witness for `generateUniform_outputs_in_unit_interval` at the
concrete odd-width configuration and state, cell `(0, 0)`. -/
theorem generateUniform_outputs_in_unit_interval_witness :
    (∀ y x : ℕ, oddState.host_seed y x < 2 ^ 31)
    ∧ ((generateUniformDistributionCPU oddCfg oddState).random_numbers_host 0 0
          = oddState.random_numbers_host 0 0
      ∨ (0 ≤ (generateUniformDistributionCPU oddCfg oddState).random_numbers_host 0 0
          ∧ (generateUniformDistributionCPU oddCfg oddState).random_numbers_host 0 0 < 1)) :=
  ⟨fun _ _ => by norm_num [oddState],
   generateUniform_outputs_in_unit_interval oddCfg oddState
     (fun _ _ => by norm_num [oddState]) 0 0⟩

/-- C9: the observation index `min(0, searchsorted(observation_times, t) - 1)`
computed by the orchestration loops is never positive, for every sorted
observation-times array and every query time. -/
theorem obs_index_never_positive (l : List ℚ) (t : ℚ) (hs : l.Sorted (· ≤ ·)) :
    obs_index l t ≤ 0 :=
  min_le_left _ _

/-- Closed witness for `obs_index_never_positive` on the sorted array
`[1, 2]` at time `3` (where `searchsorted` returns `2`). -/
theorem obs_index_never_positive_witness :
    ([(1 : ℚ), 2]).Sorted (· ≤ ·) ∧ obs_index [1, 2] 3 ≤ 0 :=
  ⟨by decide, obs_index_never_positive [1, 2] 3 (by decide)⟩

/-- C10: the convolution call `_applyQ_CPU` is read-only on the persistent
state — it returns the seed store, the random field and the GPU buffer
unchanged — and its fresh result grid has shape `(ny + 2, nx + 2)`. -/
theorem applyQ_frame_and_shape (c : NoiseConfig) (st : NoiseState) :
    (applyQ_CPU_call c st).1.host_seed = st.host_seed
    ∧ (applyQ_CPU_call c st).1.random_numbers_host = st.random_numbers_host
    ∧ (applyQ_CPU_call c st).1.random_numbers_gpu = st.random_numbers_gpu
    ∧ (applyQ_CPU_call c st).2.length = c.ny + 2
    ∧ ∀ row ∈ (applyQ_CPU_call c st).2, row.length = c.nx + 2 := by
  refine ⟨rfl, rfl, rfl, by simp [applyQ_CPU_call, applyQ_CPU_grid], ?_⟩
  intro row hrow
  simp only [applyQ_CPU_call, applyQ_CPU_grid, List.mem_map] at hrow
  obtain ⟨a, _, rfl⟩ := hrow
  simp

/-- C5: calling `perturbEtaCPU` twice in a row with
`use_existing_GPU_random_numbers = true` and no intervening generation call
leaves the seed store untouched and adds the identical increment to the
buffer both times (the same downloaded random field is convolved
deterministically). -/
theorem perturbEta_replay_deterministic (c : NoiseConfig) (st : NoiseState)
    (eta : ℕ → ℕ → ℝ) (y x : ℕ) :
    (perturbEtaCPU c st eta true).1.host_seed = st.host_seed
    ∧ (perturbEtaCPU c (perturbEtaCPU c st eta true).1
          ((perturbEtaCPU c st eta true).2) true).1.host_seed = st.host_seed
    ∧ (perturbEtaCPU c (perturbEtaCPU c st eta true).1
          ((perturbEtaCPU c st eta true).2) true).2 y x
        - (perturbEtaCPU c st eta true).2 y x
      = (perturbEtaCPU c st eta true).2 y x - eta y x := by
  refine ⟨rfl, rfl, ?_⟩
  unfold perturbEtaCPU getRandomNumbers
  simp only [if_true]
  split_ifs with h
  · ring
  · ring

/-- C2 counterexample: in the odd-width configuration (`rand_nx = 5`,
`seed_nx = 2`), a generation call leaves the last random-field column
(index `rand_nx - 1 = 4`) at its previous value `7`; in particular it does
not receive the first variate of the last seed column, which lies in
`[0, 1)` and so differs from `7`. -/
theorem generate_odd_width_counterexample :
    (generateUniformDistributionCPU oddCfg oddState).random_numbers_host 0 (rand_nx oddCfg - 1)
        = 7
    ∧ (((lcg (oddState.host_seed 0 (seed_nx oddCfg - 1))).1 : ℝ) ≠ 7
    ∧ ((lcg (lcg (oddState.host_seed 0 (seed_nx oddCfg - 1))).2).1 : ℝ) ≠ 7) := by
  refine ⟨?_, ?_, ?_⟩
  · unfold generateUniformDistributionCPU CPUUpdateRandom
    norm_num [seed_nx, seed_ny, rand_nx, rand_ny, oddCfg, oddState]
  · have h := (lcg_mem_unit (oddState.host_seed 0 (seed_nx oddCfg - 1))).2
    intro hc
    have h7 : ((lcg (oddState.host_seed 0 (seed_nx oddCfg - 1))).1 : ℝ) < 1 := by
      exact_mod_cast h
    rw [hc] at h7
    norm_num at h7
  · have h := (lcg_mem_unit (lcg (oddState.host_seed 0 (seed_nx oddCfg - 1))).2).2
    intro hc
    have h7 : ((lcg (lcg (oddState.host_seed 0 (seed_nx oddCfg - 1))).2).1 : ℝ) < 1 := by
      exact_mod_cast h
    rw [hc] at h7
    norm_num at h7

/-- C2 amended: when `rand_nx` is odd, a generation call never writes the
last random-field column at all — `seed_nx = rand_nx / 2` rounds down, so
no thread is responsible for column `rand_nx - 1`, and the column keeps its
previous value (in particular the second variate is never written to it,
but neither is the first). -/
theorem generate_odd_width_last_column_unwritten (c : NoiseConfig) (nd : Bool)
    (st : NoiseState) (y : ℕ) (hodd : Odd (rand_nx c)) :
    (CPUUpdateRandom c nd st).random_numbers_host y (rand_nx c - 1)
      = st.random_numbers_host y (rand_nx c - 1) := by
  obtain ⟨m, hm⟩ := hodd
  unfold CPUUpdateRandom
  simp only
  rw [if_neg]
  rw [seed_nx, hm]
  intro hcon
  omega

/-- Closed witness for `generate_odd_width_last_column_unwritten` at the
concrete odd-width configuration. -/
theorem generate_odd_width_last_column_unwritten_witness :
    Odd (rand_nx oddCfg)
    ∧ (CPUUpdateRandom oddCfg false oddState).random_numbers_host 0 (rand_nx oddCfg - 1)
        = oddState.random_numbers_host 0 (rand_nx oddCfg - 1) :=
  ⟨by decide, generate_odd_width_last_column_unwritten oddCfg false oddState 0 (by decide)⟩

/-- C4: the guard claimed by the spec does not exist. The valid seed
`1871412062` (below `2^31`) makes the first LCG draw `u1` exactly `0`
(since `1103515245 * 1871412062 + 12345` is divisible by `0x7fffffff`),
yet `_boxMuller` proceeds unconditionally into `log(u1)`: the embedded
Box-Muller step has no error path and still returns the advanced seed. -/
theorem boxMuller_u1_zero_unguarded :
    1871412062 < 2 ^ 31
    ∧ (lcg 1871412062).1 = 0
    ∧ (kernelDraw true 1871412062).2.2 = (lcg (lcg 1871412062).2).2 := by
  refine ⟨by norm_num, by norm_num [lcg], rfl⟩

/-- C6 counterexample: the construction with `nx = 5` and a periodic
east-west boundary is valid (`nx, ny` positive) and has `rand_nx = 5`, yet
the allocated seed grid has rows of length `seed_nx = 2`, not
`ceil(rand_nx / 2) = 3`. -/
theorem seed_shape_ceil_counterexample :
    0 < oddCfg.nx ∧ 0 < oddCfg.ny
    ∧ (mkHostSeed oddCfg (fun _ _ => 0)).map List.length
        ≠ List.replicate (rand_ny oddCfg) ((rand_nx oddCfg + 1) / 2) := by
  refine ⟨by decide, by decide, by decide⟩

/-- C6 amended: for every valid construction the seed grid has shape
`(rand_ny, floor(rand_nx / 2))` — `seed_nx = np.int32(rand_nx / 2)`
truncates — where `rand_nx` and `rand_ny` follow the halo sizing rule:
domain size plus `2 * (1 + cutoff)` on a non-periodic axis, exactly the
domain size on a periodic axis. -/
theorem seed_shape_floor (c : NoiseConfig) (e : ℕ → ℕ → ℕ)
    (hx : 0 < c.nx) (hy : 0 < c.ny) :
    (mkHostSeed c e).length = rand_ny c
    ∧ (∀ row ∈ mkHostSeed c e, row.length = rand_nx c / 2)
    ∧ (c.periodicEastWest = false → rand_nx c = c.nx + 2 * (1 + c.cutoff))
    ∧ (c.periodicEastWest = true → rand_nx c = c.nx)
    ∧ (c.periodicNorthSouth = false → rand_ny c = c.ny + 2 * (1 + c.cutoff))
    ∧ (c.periodicNorthSouth = true → rand_ny c = c.ny) := by
  refine ⟨by simp [mkHostSeed, seed_ny], ?_, ?_, ?_, ?_, ?_⟩
  · intro row hrow
    simp only [mkHostSeed, List.mem_map] at hrow
    obtain ⟨a, _, rfl⟩ := hrow
    simp [seed_nx]
  · intro h; simp [rand_nx, h]
  · intro h; simp [rand_nx, h]
  · intro h; simp [rand_ny, h]
  · intro h; simp [rand_ny, h]

/-- Closed witness for `seed_shape_floor` at the odd-width configuration. -/
theorem seed_shape_floor_witness :
    0 < oddCfg.nx ∧ 0 < oddCfg.ny
    ∧ ((mkHostSeed oddCfg (fun _ _ => 0)).length = rand_ny oddCfg
      ∧ (∀ row ∈ mkHostSeed oddCfg (fun _ _ => 0), row.length = rand_nx oddCfg / 2)
      ∧ (oddCfg.periodicEastWest = false → rand_nx oddCfg = oddCfg.nx + 2 * (1 + oddCfg.cutoff))
      ∧ (oddCfg.periodicEastWest = true → rand_nx oddCfg = oddCfg.nx)
      ∧ (oddCfg.periodicNorthSouth = false → rand_ny oddCfg = oddCfg.ny + 2 * (1 + oddCfg.cutoff))
      ∧ (oddCfg.periodicNorthSouth = true → rand_ny oddCfg = oddCfg.ny)) :=
  ⟨by decide, by decide, seed_shape_floor oddCfg (fun _ _ => 0) (by decide) (by decide)⟩

/-- C3: the index mapping of `_applyQ_CPU`. On a periodic axis the read
index wraps modulo the random-field extent (which equals the domain size),
with the local coordinate shifted by `cutoff + 1` before the modulo; on a
non-periodic axis the read is the identity into the halo-extended random
field (no wrapping), so the stencil centre of domain cell `d` reads the
fixed offset `d + (cutoff + 1)`. With a periodic east-west axis, the
stencil of the east-edge output cell `a_x = nx + 1` contains the offset
`t_x = cutoff` whose read index is column `0` of the random field. -/
theorem convolution_index_mapping (c : NoiseConfig) (hnx : 0 < c.nx) (hny : 0 < c.ny) :
    (c.periodicEastWest = true → rand_nx c = c.nx
      ∧ ∀ i : ℕ, (global_i c i : ℤ) = ((i : ℤ) - c.cutoff - 1) % (rand_nx c : ℤ)
        ∧ global_i c i < rand_nx c)
    ∧ (c.periodicEastWest = false →
        (∀ i : ℕ, global_i c i = i)
        ∧ ∀ d : ℕ, global_i c ((d + 1) + c.cutoff) = d + (c.cutoff + 1))
    ∧ (c.periodicNorthSouth = true → rand_ny c = c.ny
      ∧ ∀ j : ℕ, (global_j c j : ℤ) = ((j : ℤ) - c.cutoff - 1) % (rand_ny c : ℤ)
        ∧ global_j c j < rand_ny c)
    ∧ (c.periodicNorthSouth = false →
        (∀ j : ℕ, global_j c j = j)
        ∧ ∀ d : ℕ, global_j c ((d + 1) + c.cutoff) = d + (c.cutoff + 1))
    ∧ (c.periodicEastWest = true →
        c.cutoff ∈ Finset.range (2 * c.cutoff + 1)
        ∧ global_i c ((c.nx + 1) + c.cutoff) = 0) := by
  refine ⟨?_, ?_, ?_, ?_, ?_⟩
  · intro hp
    refine ⟨by simp [rand_nx, hp], ?_⟩
    intro i
    have h0 : (0 : ℤ) < (rand_nx c : ℤ) := by
      simp only [rand_nx, hp, if_true]
      exact_mod_cast hnx
    have hnn := Int.emod_nonneg ((i : ℤ) - c.cutoff - 1) (ne_of_gt h0)
    have hub := Int.emod_lt_of_pos ((i : ℤ) - c.cutoff - 1) h0
    constructor
    · simp only [global_i, hp, if_true]
      omega
    · simp only [global_i, hp, if_true]
      omega
  · intro hp
    constructor
    · intro i
      simp [global_i, hp]
    · intro d
      simp only [global_i, hp, Bool.false_eq_true, if_false]
      omega
  · intro hp
    refine ⟨by simp [rand_ny, hp], ?_⟩
    intro j
    have h0 : (0 : ℤ) < (rand_ny c : ℤ) := by
      simp only [rand_ny, hp, if_true]
      exact_mod_cast hny
    have hnn := Int.emod_nonneg ((j : ℤ) - c.cutoff - 1) (ne_of_gt h0)
    have hub := Int.emod_lt_of_pos ((j : ℤ) - c.cutoff - 1) h0
    constructor
    · simp only [global_j, hp, if_true]
      omega
    · simp only [global_j, hp, if_true]
      omega
  · intro hp
    constructor
    · intro j
      simp [global_j, hp]
    · intro d
      simp only [global_j, hp, Bool.false_eq_true, if_false]
      omega
  · intro hp
    refine ⟨Finset.mem_range.mpr (by omega), ?_⟩
    have hr : rand_nx c = c.nx := by simp [rand_nx, hp]
    simp only [global_i, hp, if_true, hr]
    have harg : ((c.nx + 1 + c.cutoff : ℕ) : ℤ) - c.cutoff - 1 = (c.nx : ℤ) := by
      push_cast
      ring
    rw [harg, Int.emod_self]
    rfl

/-- Closed witness for `convolution_index_mapping` at the doubly periodic
odd-width configuration. -/
theorem convolution_index_mapping_witness :
    0 < oddCfg.nx ∧ 0 < oddCfg.ny
    ∧ ((oddCfg.periodicEastWest = true → rand_nx oddCfg = oddCfg.nx
        ∧ ∀ i : ℕ, (global_i oddCfg i : ℤ)
              = ((i : ℤ) - oddCfg.cutoff - 1) % (rand_nx oddCfg : ℤ)
          ∧ global_i oddCfg i < rand_nx oddCfg)
      ∧ (oddCfg.periodicEastWest = false →
          (∀ i : ℕ, global_i oddCfg i = i)
          ∧ ∀ d : ℕ, global_i oddCfg ((d + 1) + oddCfg.cutoff) = d + (oddCfg.cutoff + 1))
      ∧ (oddCfg.periodicNorthSouth = true → rand_ny oddCfg = oddCfg.ny
        ∧ ∀ j : ℕ, (global_j oddCfg j : ℤ)
              = ((j : ℤ) - oddCfg.cutoff - 1) % (rand_ny oddCfg : ℤ)
          ∧ global_j oddCfg j < rand_ny oddCfg)
      ∧ (oddCfg.periodicNorthSouth = false →
          (∀ j : ℕ, global_j oddCfg j = j)
          ∧ ∀ d : ℕ, global_j oddCfg ((d + 1) + oddCfg.cutoff) = d + (oddCfg.cutoff + 1))
      ∧ (oddCfg.periodicEastWest = true →
          oddCfg.cutoff ∈ Finset.range (2 * oddCfg.cutoff + 1)
          ∧ global_i oddCfg ((oddCfg.nx + 1) + oddCfg.cutoff) = 0)) :=
  ⟨by decide, by decide, convolution_index_mapping oddCfg (by decide) (by decide)⟩

/-- Reindexing a sum over the symmetric integer stencil `[-n, n]` as a sum
over `Finset.range (2n + 1)` of shifted offsets. -/
theorem sum_Icc_cutoff (n : ℕ) (f : ℤ → ℝ) :
    ∑ k ∈ Finset.Icc (-(n : ℤ)) (n : ℤ), f k
      = ∑ t ∈ Finset.range (2 * n + 1), f ((t : ℤ) - (n : ℤ)) := by
  refine Finset.sum_nbij' (fun k => (k + n).toNat) (fun t => (t : ℤ) - (n : ℤ))
    ?_ ?_ ?_ ?_ ?_
  · intro a ha
    simp only [Finset.mem_Icc] at ha
    simp only [Finset.mem_range]
    omega
  · intro a ha
    simp only [Finset.mem_range] at ha
    simp only [Finset.mem_Icc]
    omega
  · intro a ha
    simp only [Finset.mem_Icc] at ha
    show (((a + (n : ℤ)).toNat : ℤ)) - (n : ℤ) = a
    omega
  · intro a ha
    simp only [Finset.mem_range] at ha
    show (((a : ℤ) - (n : ℤ)) + (n : ℤ)).toNat = a
    omega
  · intro a ha
    simp only [Finset.mem_Icc] at ha
    show f a = f ((((a + (n : ℤ)).toNat : ℕ) : ℤ) - (n : ℤ))
    congr 1
    omega

/-- The spec-modelled column mapping agrees with the reference mapping
`global_i` of `_applyQ_CPU`: for output cell `a` (domain coordinate
`a - 1`) and stencil slot `t` (offset `t - cutoff`), both name the same
random-field column. -/
theorem specMapIdx_eq_global_i (c : NoiseConfig) (a t : ℕ) :
    specMapIdx c.periodicEastWest (rand_nx c) c.cutoff
        ((a : ℤ) - 1 + ((t : ℤ) - (c.cutoff : ℤ)))
      = global_i c (a + t) := by
  unfold specMapIdx global_i
  cases hpe : c.periodicEastWest
  · simp only [Bool.false_eq_true, if_false]
    omega
  · simp only [if_true]
    congr 2
    push_cast
    ring

/-- The spec-modelled row mapping agrees with the reference mapping
`global_j` of `_applyQ_CPU`. -/
theorem specMapIdx_eq_global_j (c : NoiseConfig) (a t : ℕ) :
    specMapIdx c.periodicNorthSouth (rand_ny c) c.cutoff
        ((a : ℤ) - 1 + ((t : ℤ) - (c.cutoff : ℤ)))
      = global_j c (a + t) := by
  unfold specMapIdx global_j
  cases hpn : c.periodicNorthSouth
  · simp only [Bool.false_eq_true, if_false]
    omega
  · simp only [if_true]
    congr 2
    push_cast
    ring

/-- The spec-modelled SOAR weight factors through the distance profile. -/
theorem soarWeight_as_profile (c : NoiseConfig) (kx ky : ℤ) :
    soarWeight c kx ky
      = SOARprofile c (Real.sqrt (c.dx * c.dx * (kx : ℝ) ^ 2 + c.dy * c.dy * (ky : ℝ) ^ 2)) :=
  rfl

/-- The reference weight `_SOAR_Q_CPU` also factors through the distance
profile. -/
theorem SOAR_Q_CPU_as_profile (c : NoiseConfig) (a_x a_y b_x b_y : ℕ) :
    SOAR_Q_CPU c a_x a_y b_x b_y
      = SOARprofile c (Real.sqrt (c.dx * c.dx * ((a_x : ℝ) - (b_x : ℝ)) ^ 2
          + c.dy * c.dy * ((a_y : ℝ) - (b_y : ℝ)) ^ 2)) :=
  rfl

theorem soarWeight_eq_SOAR (c : NoiseConfig) (a_x a_y t_x t_y : ℕ) :
    soarWeight c ((t_x : ℤ) - (c.cutoff : ℤ)) ((t_y : ℤ) - (c.cutoff : ℤ))
      = SOAR_Q_CPU c (a_x + c.cutoff) (a_y + c.cutoff) (a_x + t_x) (a_y + t_y) := by
  rw [soarWeight_as_profile, SOAR_Q_CPU_as_profile]
  congr 1
  congr 1
  push_cast
  ring

/-- The spec-modelled accelerated convolution computes exactly the same
value as the sequential reference `_applyQ_CPU` at every output cell. -/
theorem applyQ_accel_eq_CPU (c : NoiseConfig) (st : NoiseState) (a_y a_x : ℕ) :
    applyQ_accel c st a_y a_x = applyQ_CPU c st a_y a_x := by
  unfold applyQ_accel applyQ_CPU
  rw [sum_Icc_cutoff]
  apply Finset.sum_congr rfl
  intro t_y hty
  rw [sum_Icc_cutoff]
  apply Finset.sum_congr rfl
  intro t_x htx
  rw [specMapIdx_eq_global_i, specMapIdx_eq_global_j, soarWeight_eq_SOAR]
  rfl

/-- C1: on every identical random field, the accelerated convolution
(modelled from the spec, the GPU kernel source being outside this
repository snapshot) and the sequential reference `_applyQ_CPU` agree
within `1e-5` absolute tolerance on the whole `(ny+2, nx+2)` perturbation
grid — indeed they agree exactly. -/
theorem accel_matches_reference (c : NoiseConfig) (st : NoiseState) (a_y a_x : ℕ)
    (hy : a_y < c.ny + 2) (hx : a_x < c.nx + 2) :
    |applyQ_accel c st a_y a_x - applyQ_CPU c st a_y a_x| ≤ 1 / 100000 := by
  rw [applyQ_accel_eq_CPU, sub_self, abs_zero]
  norm_num

/-- Closed witness for `accel_matches_reference` at the concrete odd-width
configuration and state, output cell `(0, 0)`. -/
theorem accel_matches_reference_witness :
    0 < oddCfg.ny + 2 ∧ 0 < oddCfg.nx + 2
    ∧ |applyQ_accel oddCfg oddState 0 0 - applyQ_CPU oddCfg oddState 0 0| ≤ 1 / 100000 :=
  ⟨by decide, by decide, accel_matches_reference oddCfg oddState 0 0 (by decide) (by decide)⟩
